import Mathlib

/-
Verification of the Poserspace ingestion core against its specification.

The repository holds two near-duplicate SDL display programs,
src/display/sdl/main.c++ (the coordinate display) and
src/display/sdl/sidescroll/main.c++ (the sidescrolling text display).
Both contain the same line-oriented network ingestion engine:
an epoll event loop, a positionally indexed connection registry,
a per-connection 3-state protocol parser (ACTION, HEADER, DATA) and
interpreter dispatch selected by the Content-type header.

This file is a shallow embedding of that core.  Byte strings are
`List Char`; C++ exceptions are `Outcome.thrown`; undefined behavior
(null `shared_ptr` dereference, out-of-bounds `std::vector` access)
is `Outcome.crash`.  Real numbers produced by `atof` are idealized as
rationals.  The pieces that are textually identical in the two programs
(ConnectionState's buffering loop, the registry, the reactor plumbing)
are written once, parameterized by the program's interpreter type and
downstream state; the pieces that differ (recognized Content-type
values and the per-record data effects) are given per program in the
`Display` and `Sidescroll` namespaces.
-/

namespace Poserspace

/-- The three parser states of `ConnectionState` (ACTION, HEADER, DATA). -/
inductive PState where
  | action
  | header
  | data
deriving DecidableEq, Repr

/-- Result of running a piece of the translated code: a normal return,
a thrown C++ exception carrying its message, or undefined behavior
(null dereference or out-of-bounds access), modelled as `crash`. -/
inductive Outcome (α : Type) where
  | ok (a : α)
  | thrown (msg : List Char)
  | crash
deriving DecidableEq, Repr

/-- The whitespace class of std::isspace in the C locale, used by
boost::algorithm::trim_left_copy and by atof's leading-space skip. -/
def isSpaceC (c : Char) : Bool :=
  c = ' ' || c = '\t' || c = '\n' || c = '\x0b' || c = '\x0c' || c = '\r'

/-- boost::algorithm::trim_left_copy. -/
def trimLeft (l : List Char) : List Char :=
  l.dropWhile isSpaceC

/-- boost::algorithm::split with the predicate `c == '\t'`: the record's
tab-separated fields.  The result always has at least one field. -/
def splitTab : List Char → List (List Char)
  | [] => [[]]
  | c :: cs =>
    match splitTab cs with
    | [] => [[]]
    | f :: fs => if c = '\t' then [] :: f :: fs else (c :: f) :: fs

/-- std::find(line.begin(), line.end(), ':') together with the split of a
header line into the part before the colon and the part after it;
`none` when the line has no colon. -/
def splitColon : List Char → Option (List Char × List Char)
  | [] => none
  | c :: cs =>
    if c = ':' then some ([], cs)
    else (splitColon cs).map (fun pr => (c :: pr.1, pr.2))

/-- Accumulating scan of a decimal digit run: value so far, number of
digits consumed, rest of the input. -/
def digitsAux : Nat → Nat → List Char → Nat × Nat × List Char
  | v, n, [] => (v, n, [])
  | v, n, c :: cs =>
    if c.isDigit then digitsAux (v * 10 + (c.toNat - 48)) (n + 1) cs
    else (v, n, c :: cs)

/-- The syntactic pieces atof recognizes in its input: the sign, the
integer-part value and digit count, and the fraction-part value and
digit count. -/
structure AtofParts where
  neg : Bool
  ipv : Nat
  ipn : Nat
  fpv : Nat
  fpn : Nat
deriving DecidableEq, Repr

/-- The scan performed by the C library function atof on plain decimal
notation: skip leading whitespace, an optional sign, integer digits and
an optional fractional part.  Exponent and hexadecimal forms are not
modelled (no claim uses them). -/
def atofParse (s : List Char) : AtofParts :=
  let s1 := s.dropWhile isSpaceC
  let neg : Bool := match s1 with
    | '-' :: _ => true
    | _ => false
  let s2 : List Char := match s1 with
    | '-' :: r => r
    | '+' :: r => r
    | _ => s1
  let ip := digitsAux 0 0 s2
  let fp : Nat × Nat := match ip.2.2 with
    | '.' :: r =>
      let d := digitsAux 0 0 r
      (d.1, d.2.1)
    | _ => (0, 0)
  ⟨neg, ip.1, ip.2.1, fp.1, fp.2⟩

/-- Model of the C library function atof; the double result is
idealized as a rational.  When no digits can be parsed the result is 0,
exactly as atof returns 0.0 on unconvertible input. -/
def atof (s : List Char) : Rat :=
  let p := atofParse s
  if p.ipn = 0 ∧ p.fpn = 0 then 0
  else (if p.neg then (-1 : Rat) else 1) * ((p.ipv : Rat) + (p.fpv : Rat) / (10 : Rat) ^ p.fpn)

/-- One step of the `handleInput` scan: locate the first line feed in the
buffer, returning the bytes strictly before it and strictly after it;
`none` when the buffer holds no complete line. -/
def splitAtNL : List Char → Option (List Char × List Char)
  | [] => none
  | c :: cs =>
    if c = '\n' then some ([], cs)
    else (splitAtNL cs).map (fun pr => (c :: pr.1, pr.2))

/-- The carriage-return strip of ConnectionState::handleInput:
`auto e = nl; if(*(e - 1) == '\r') --e;`.  The source performs the
`*(e - 1)` read without an emptiness guard; when the line feed sits at
buffer position 0 that read touches the byte before the buffer, whose
value is unspecified.  The model takes that byte to differ from CR,
which is the behavior observed at runtime (a blank protocol line is
recognized as blank). -/
def stripCR (p : List Char) : List Char :=
  if p.getLast? = some '\r' then p.dropLast else p

/-- Fuel-indexed worker for `extractLines`; the fuel only serves to make
the recursion structural (any fuel at least the buffer length gives the
same result). -/
def extractLinesF : Nat → List Char → List (List Char) × List Char
  | 0, buf => ([], buf)
  | fuel + 1, buf =>
    match splitAtNL buf with
    | none => ([], buf)
    | some (p, r) =>
      let pr := extractLinesF fuel r
      (stripCR p :: pr.1, pr.2)

/-- The line-extraction loop of ConnectionState::handleInput: every
complete line of the buffer in order, with its terminator consumed and
a trailing CR stripped, together with the remaining bytes that do not
yet form a complete line. -/
def extractLines (buf : List Char) : List (List Char) × List Char :=
  extractLinesF buf.length buf

/-- Feeding a list of chunks one read at a time through the extraction
loop, starting from a buffered remainder: the lines recognized across
all reads and the final remainder. -/
def feedChunks : List Char → List (List Char) → List (List Char) × List Char
  | r, [] => ([], r)
  | r, ch :: chs =>
    let e := extractLines (r ++ ch)
    let rest := feedChunks e.2 chs
    (e.1 ++ rest.1, rest.2)

/-- The per-connection fields of `ConnectionState`, common to both
programs; `ι` is the program's interpreter type. -/
structure Conn (ι : Type) where
  fd : Int
  buf : List Char
  st : PState
  interpreter : Option ι
deriving DecidableEq, Repr

/-- ConnectionState(fd): state ACTION, no interpreter, empty buffer. -/
def initConn {ι : Type} (fd : Int) : Conn ι :=
  ⟨fd, [], .action, none⟩

/-- Exception-propagating sequencing: run `f` over the list until it
finishes, throws or crashes.  This is the C++ sequencing of the calls
in a loop body: a thrown exception or undefined behavior abandons the
rest of the iteration. -/
def runAll {σ α : Type} (f : σ → α → Outcome σ) : σ → List α → Outcome σ
  | s, [] => .ok s
  | s, a :: as =>
    match f s a with
    | .ok s' => runAll f s' as
    | .thrown m => .thrown m
    | .crash => .crash

/-- ConnectionState::handleInput for a handleLine step `hl`: append the
read bytes to the buffer, then repeatedly extract a complete line and
hand it to handleLine.  The source interleaves extraction and handling
in one while loop; since handleLine never reads or writes `buf`, the
model extracts all complete lines first and folds handleLine over them
with `buf` already holding the final remainder. -/
def handleInputG {ι δ : Type} (hl : Conn ι × δ → List Char → Outcome (Conn ι × δ))
    (s : Conn ι × δ) (input : List Char) : Outcome (Conn ι × δ) :=
  let e := extractLines (s.1.buf ++ input)
  runAll hl (⟨s.1.fd, e.2, s.1.st, s.1.interpreter⟩, s.2) e.1

/-- Fuel-indexed worker for `growTo` (fuel `con` always suffices). -/
def growToF {ι : Type} : Nat → List (Conn ι) → Nat → List (Conn ι)
  | 0, conns, _ => conns
  | fuel + 1, conns, con =>
    if conns.length < con then growToF fuel (conns ++ [initConn (-1)]) con
    else conns

/-- `while(connections.size() < con) connections.push_back(ConnectionState(-1));` -/
def growTo {ι : Type} (conns : List (Conn ι)) (con : Nat) : List (Conn ι) :=
  growToF con conns con

/-- The registry bookkeeping of acceptConnection: grow the table with
placeholder closed entries while its size is below the new handle, then
push the new connection's state. -/
def acceptConnection {ι : Type} (conns : List (Conn ι)) (con : Nat) : List (Conn ι) :=
  growTo conns con ++ [initConn (Int.ofNat con)]

/-- Result of read(2) on a connection: a negative return (error), or
`data.length` bytes (zero bytes when the peer closed). -/
inductive ReadResult where
  | err
  | bytes (data : List Char)
deriving DecidableEq, Repr

/-- Process-wide state owned by the event loop: the connection registry,
the set of descriptors registered with the epoll instance, and the
program's downstream published state `δ`. -/
structure World (ι δ : Type) where
  conns : List (Conn ι)
  registered : List Nat
  down : δ
deriving DecidableEq, Repr

/-- A readiness event delivered by epoll_wait: either the listening
socket is ready (a new connection with handle `h` is accepted), or
connection `fd` is readable with the given read outcome. -/
inductive Event where
  | newConn (h : Nat)
  | input (fd : Nat) (r : ReadResult)
deriving DecidableEq, Repr

def epollFailMsg : List Char := "epoll_ctl(2) failed".toList

/-- acceptConnection at the world level: register the new handle with
the poller (epoll_ctl ADD throws on failure, e.g. when the handle is
already registered) and install the connection in the registry. -/
def acceptConnW {ι δ : Type} (w : World ι δ) (h : Nat) : Outcome (World ι δ) :=
  if h ∈ w.registered then .thrown epollFailMsg
  else .ok ⟨acceptConnection w.conns h, w.registered ++ [h], w.down⟩

/-- acceptInput.  On a negative read the source executes
`epoll_ctl(poll, EPOLL_CTL_DEL, 0, 0)` — it deletes descriptor 0, not
`fd` — and throws when that call fails (descriptor 0 not registered);
only then `close(fd)` and the slot reset run.  On a non-negative read,
including a zero-length one, the bytes are handed to
`connections[fd].handleInput` (an out-of-bounds index is a crash).
Kernel-side auto-deregistration of a closed descriptor is not modelled;
no claim depends on it. -/
def acceptInputG {ι δ : Type} (hl : Conn ι × δ → List Char → Outcome (Conn ι × δ))
    (w : World ι δ) (fd : Nat) (r : ReadResult) : Outcome (World ι δ) :=
  match r with
  | .err =>
    if 0 ∈ w.registered then
      if fd < w.conns.length then
        .ok ⟨w.conns.set fd (initConn (-1)), w.registered.erase 0, w.down⟩
      else .crash
    else .thrown epollFailMsg
  | .bytes data =>
    match w.conns.get? fd with
    | none => .crash
    | some c =>
      match handleInputG hl (c, w.down) data with
      | .ok (c', d') => .ok ⟨w.conns.set fd c', w.registered, d'⟩
      | .thrown m => .thrown m
      | .crash => .crash

/-- The dispatch on one readiness event in the main loop's for body. -/
def handleEventG {ι δ : Type} (hl : Conn ι × δ → List Char → Outcome (Conn ι × δ))
    (w : World ι δ) (e : Event) : Outcome (World ι δ) :=
  match e with
  | .newConn h => acceptConnW w h
  | .input fd r => acceptInputG hl w fd r

/-- One iteration of the event loop: process every event of the batch
returned by epoll_wait (rendering ticks are outside the ingestion
core).  An exception thrown by any handler propagates out — nothing in
the loop catches it. -/
def processEventsG {ι δ : Type} (hl : Conn ι × δ → List Char → Outcome (Conn ι × δ))
    (w : World ι δ) (evs : List Event) : Outcome (World ι δ) :=
  runAll (handleEventG hl) w evs

/-- The event loop over successive epoll_wait batches.  The only
exception handler of the program is the try/catch around all of main,
so a thrown outcome here means the whole process stops serving every
connection. -/
def runLoopG {ι δ : Type} (hl : Conn ι × δ → List Char → Outcome (Conn ι × δ))
    (w : World ι δ) (batches : List (List Event)) : Outcome (World ι δ) :=
  runAll (processEventsG hl) w batches

/-- Rewrite the buffer field inside an ok outcome; identity on thrown
and crash.  Used to state that handleLine's behavior does not depend on
the buffer it carries along. -/
def rebuf {ι δ : Type} (b : List Char) : Outcome (Conn ι × δ) → Outcome (Conn ι × δ)
  | .ok (c, d) => .ok (⟨c.fd, b, c.st, c.interpreter⟩, d)
  | .thrown m => .thrown m
  | .crash => .crash

namespace Display

/-- The interpreter variants of the coordinate display:
GeoInterpreter and TextInterpreter. -/
inductive Interp where
  | geo
  | text
deriving DecidableEq, Repr

/-- The shared downstream state `geo` of the coordinate display: the
target coordinates the presentation layer steers toward.  (The earth
surface and the current smoothed coordinates belong to rendering and
are outside the ingestion core.) -/
structure GeoData where
  targetLat : Rat
  targetLon : Rat
deriving DecidableEq, Repr

def contentTypeName : List Char := "Content-type".toList
def geoValue : List Char := "x-poserspace/geo".toList
def textValue : List Char := "x-poserspace/text".toList

/-- ConnectionState::handleHeader of the coordinate display: an exact
match on the header name Content-type, then two exact value matches
binding GeoInterpreter or TextInterpreter. -/
def handleHeader (c : Conn Interp) (hd val : List Char) : Conn Interp :=
  if hd = contentTypeName then
    let c1 : Conn Interp :=
      if val = geoValue then ⟨c.fd, c.buf, c.st, some Interp.geo⟩ else c
    if val = textValue then ⟨c1.fd, c1.buf, c1.st, some Interp.text⟩ else c1
  else c

/-- The virtual handleData call of the coordinate display.
GeoInterpreter::handleData writes data[0] and data[1] to stderr (an
out-of-bounds field access is undefined behavior);
TextInterpreter::handleData does nothing. -/
def interpData (i : Interp) (values : List (List Char)) : Outcome Unit :=
  match i with
  | .geo =>
    match values.get? 0, values.get? 1 with
    | some _, some _ => .ok ()
    | _, _ => .crash
  | .text => .ok ()

def invalidHeaderMsg : List Char := "invalid header: ".toList

/-- ConnectionState::handleLine of the coordinate display.  ACTION:
any line moves to HEADER.  HEADER: a blank line moves to DATA, a line
without a colon throws, otherwise the header is dispatched with its
value left-trimmed.  DATA: the line is split on tabs, handed to the
bound interpreter (a null interpreter dereference is a crash), and then
— regardless of which interpreter is bound — geo.targetLat and
geo.targetLon are overwritten with atof of fields 0 and 1 (a record
with fewer than two fields is an out-of-bounds access). -/
def handleLine (c : Conn Interp) (g : GeoData) (line : List Char) :
    Outcome (Conn Interp × GeoData) :=
  match c.st with
  | .action => .ok (⟨c.fd, c.buf, .header, c.interpreter⟩, g)
  | .header =>
    if line = [] then .ok (⟨c.fd, c.buf, .data, c.interpreter⟩, g)
    else
      match splitColon line with
      | none => .thrown (invalidHeaderMsg ++ line)
      | some (hd, rest) => .ok (handleHeader c hd (trimLeft rest), g)
  | .data =>
    let values := splitTab line
    match c.interpreter with
    | none => .crash
    | some i =>
      match interpData i values with
      | .ok _ =>
        match values.get? 0, values.get? 1 with
        | some v0, some v1 => .ok (c, ⟨atof v0, atof v1⟩)
        | _, _ => .crash
      | .thrown m => .thrown m
      | .crash => .crash

/-- handleLine as a step on the paired connection and downstream state. -/
def stepConn (s : Conn Interp × GeoData) (line : List Char) :
    Outcome (Conn Interp × GeoData) :=
  handleLine s.1 s.2 line

def handleInput : Conn Interp × GeoData → List Char → Outcome (Conn Interp × GeoData) :=
  handleInputG stepConn

/-- Feeding several reads one after the other through handleInput. -/
def feedAll : Conn Interp × GeoData → List (List Char) → Outcome (Conn Interp × GeoData) :=
  runAll handleInput

def acceptInput : World Interp GeoData → Nat → ReadResult → Outcome (World Interp GeoData) :=
  acceptInputG stepConn

def processEvents : World Interp GeoData → List Event → Outcome (World Interp GeoData) :=
  processEventsG stepConn

def runLoop : World Interp GeoData → List (List Event) → Outcome (World Interp GeoData) :=
  runLoopG stepConn

end Display

namespace Sidescroll

/-- The sidescroll display recognizes a single interpreter variant,
TextInterpreter. -/
inductive Interp where
  | text
deriving DecidableEq, Repr

/-- The global PRNG of the sidescroll display, modelled as the stream
of values the successive rand() calls return. -/
abbrev RandS := List Nat

def randNext (rs : RandS) : Nat × RandS :=
  (rs.headD 0, rs.tail)

def screenW : Int := 1920
def screenH : Nat := 1080

/-- One on-screen line of the sidescroll display (struct Line).  The
font pointer is modelled by the index used to fetch it (`fonts[l.h]`),
the SDL surface belongs to rendering and is omitted, and the float
fields carry their exact integer creation values. -/
structure LineItem where
  fontIdx : Nat
  x : Int
  y : Int
  w : Int
  h : Nat
  content : List Char
  colR : Int
  colG : Int
  colB : Int
deriving DecidableEq, Repr

/-- The downstream published state of the sidescroll display: the list
of live display items together with the PRNG stream. -/
structure SState where
  items : List LineItem
  rs : RandS
deriving DecidableEq, Repr

/-- The size-distribution policy `maxsize(int lineCount)`.  Each branch
past the first consumes one rand() value; `(rand() % k) ? a : b` yields
`a` on a nonzero remainder and `b` on a zero one. -/
def maxsize (lineCount : Nat) (rs : RandS) : Nat × RandS :=
  if lineCount < 20 then (28, rs)
  else
    let n := randNext rs
    let r := n.1
    let rs' := n.2
    if lineCount < 25 then (if r % 10 ≠ 0 then 24 else 28, rs')
    else if lineCount < 30 then (if r % 15 ≠ 0 then 20 else 28, rs')
    else if lineCount < 50 then (if r % 20 ≠ 0 then 16 else 24, rs')
    else if lineCount < 80 then (if r % 40 ≠ 0 then 12 else 24, rs')
    else if lineCount < 110 then (if r % 50 ≠ 0 then 8 else 24, rs')
    else if lineCount < 200 then (if r % 100 ≠ 0 then 4 else 24, rs')
    else (if r % lineCount ≠ 0 then 1 else 24, rs')

/-- The set of values each branch of maxsize can return, indexed by the
live item count; used to state that a chosen size respects the policy's
declared bounds for that count. -/
def maxsizeVals (lineCount : Nat) : List Nat :=
  if lineCount < 20 then [28]
  else if lineCount < 25 then [24, 28]
  else if lineCount < 30 then [20, 28]
  else if lineCount < 50 then [16, 24]
  else if lineCount < 80 then [12, 24]
  else if lineCount < 110 then [8, 24]
  else if lineCount < 200 then [4, 24]
  else [1, 24]

/-- The font table built in main: index 0 holds the null placeholder,
indices 1 through 31 hold the font opened at that point size. -/
def fontsInit : List (Option Nat) :=
  none :: (List.range' 1 31).map some

/-- TextInterpreter::handleData of the sidescroll display.  A record
whose first field is empty is ignored.  Otherwise a new Line is built:
`l.h = rand() % maxsize(lines.size()) + 4` (the two rand() calls of
that expression are unsequenced in C++; the model evaluates the left
operand's rand() first — every property proved below holds for either
order), `l.font = fonts[l.h]`, `l.x = WIDTH`, `l.y = rand() % HEIGHT`,
`l.w = WIDTH * 2`, green `64 + 191 * l.h / 32 - (rand() % 32)`, and the
item is appended to the live list. -/
def textHandleData (s : SState) (values : List (List Char)) : Outcome SState :=
  match values.get? 0 with
  | none => .crash
  | some f0 =>
    if f0 = [] then .ok s
    else
      let n1 := randNext s.rs
      let m := maxsize s.items.length n1.2
      let h := n1.1 % m.1 + 4
      let n2 := randNext m.2
      let n3 := randNext n2.2
      let item : LineItem :=
        ⟨h, screenW, Int.ofNat (n2.1 % screenH), screenW * 2, h, f0, 0,
          64 + 191 * (Int.ofNat h) / 32 - Int.ofNat (n3.1 % 32), 0⟩
      .ok ⟨s.items ++ [item], n3.2⟩

def contentTypeName : List Char := "Content-type".toList
def textValue : List Char := "x-poserspace/text".toList

/-- ConnectionState::handleHeader of the sidescroll display: only
`x-poserspace/text` binds an interpreter. -/
def handleHeader (c : Conn Interp) (hd val : List Char) : Conn Interp :=
  if hd = contentTypeName then
    if val = textValue then ⟨c.fd, c.buf, c.st, some Interp.text⟩ else c
  else c

def invalidHeaderMsg : List Char := "invalid header: ".toList

/-- ConnectionState::handleLine of the sidescroll display.  The ACTION
and HEADER cases are as in the coordinate display; in DATA the line is
split on tabs and handed to the bound interpreter (the only variant is
TextInterpreter), a null interpreter dereference being a crash. -/
def handleLine (c : Conn Interp) (s : SState) (line : List Char) :
    Outcome (Conn Interp × SState) :=
  match c.st with
  | .action => .ok (⟨c.fd, c.buf, .header, c.interpreter⟩, s)
  | .header =>
    if line = [] then .ok (⟨c.fd, c.buf, .data, c.interpreter⟩, s)
    else
      match splitColon line with
      | none => .thrown (invalidHeaderMsg ++ line)
      | some (hd, rest) => .ok (handleHeader c hd (trimLeft rest), s)
  | .data =>
    let values := splitTab line
    match c.interpreter with
    | none => .crash
    | some _ =>
      match textHandleData s values with
      | .ok s' => .ok (c, s')
      | .thrown m => .thrown m
      | .crash => .crash

/-- handleLine as a step on the paired connection and downstream state. -/
def stepConn (s : Conn Interp × SState) (line : List Char) :
    Outcome (Conn Interp × SState) :=
  handleLine s.1 s.2 line

def handleInput : Conn Interp × SState → List Char → Outcome (Conn Interp × SState) :=
  handleInputG stepConn

/-- Feeding several reads one after the other through handleInput. -/
def feedAll : Conn Interp × SState → List (List Char) → Outcome (Conn Interp × SState) :=
  runAll handleInput

def acceptInput : World Interp SState → Nat → ReadResult → Outcome (World Interp SState) :=
  acceptInputG stepConn

def processEvents : World Interp SState → List Event → Outcome (World Interp SState) :=
  processEventsG stepConn

def runLoop : World Interp SState → List (List Event) → Outcome (World Interp SState) :=
  runLoopG stepConn

end Sidescroll

/- ------------------------------------------------------------------ -/
/- Lemmas about the line-extraction scan.                              -/
/- ------------------------------------------------------------------ -/

lemma splitAtNL_length : ∀ {l p r : List Char}, splitAtNL l = some (p, r) → r.length < l.length := by
  intro l
  induction l with
  | nil => intro p r h; simp [splitAtNL] at h
  | cons c cs ih =>
    intro p r h
    by_cases hc : c = '\n'
    · rw [splitAtNL, if_pos hc] at h
      cases h
      simp
    · rw [splitAtNL, if_neg hc] at h
      obtain ⟨⟨p', r'⟩, hcs, heq⟩ := Option.map_eq_some'.mp h
      cases heq
      have := ih hcs
      simp
      omega

lemma splitAtNL_some_append : ∀ {l p r : List Char}, splitAtNL l = some (p, r) →
    ∀ (m : List Char), splitAtNL (l ++ m) = some (p, r ++ m) := by
  intro l
  induction l with
  | nil => intro p r h; simp [splitAtNL] at h
  | cons c cs ih =>
    intro p r h m
    by_cases hc : c = '\n'
    · rw [splitAtNL, if_pos hc] at h
      cases h
      rw [List.cons_append, splitAtNL, if_pos hc]
    · rw [splitAtNL, if_neg hc] at h
      obtain ⟨⟨p', r'⟩, hcs, heq⟩ := Option.map_eq_some'.mp h
      cases heq
      rw [List.cons_append, splitAtNL, if_neg hc, ih hcs m]
      rfl

lemma splitAtNL_no_nl : ∀ {l : List Char}, '\n' ∉ l →
    ∀ (r : List Char), splitAtNL (l ++ '\n' :: r) = some (l, r) := by
  intro l
  induction l with
  | nil => intro _ r; simp [splitAtNL]
  | cons c cs ih =>
    intro h r
    have hc : ¬ c = '\n' := fun hc => h (by simp [hc])
    have hcs : '\n' ∉ cs := fun hm => h (by simp [hm])
    rw [List.cons_append, splitAtNL, if_neg hc, ih hcs r]
    rfl

lemma splitColon_none : ∀ {l : List Char}, ':' ∉ l → splitColon l = none := by
  intro l
  induction l with
  | nil => intro _; rfl
  | cons c cs ih =>
    intro h
    have hc : ¬ c = ':' := fun hc => h (by simp [hc])
    have hcs : ':' ∉ cs := fun hm => h (by simp [hm])
    rw [splitColon, if_neg hc, ih hcs]
    rfl

lemma stripCR_no_cr {l : List Char} (h : '\r' ∉ l) : stripCR l = l := by
  rw [stripCR, if_neg]
  intro hlast
  obtain ⟨hne, heq⟩ := List.mem_getLast?_eq_getLast (Option.mem_def.mpr hlast)
  exact h (heq ▸ List.getLast_mem hne)

lemma extractLinesF_congr : ∀ (f1 f2 : Nat) (buf : List Char),
    buf.length ≤ f1 → buf.length ≤ f2 → extractLinesF f1 buf = extractLinesF f2 buf := by
  intro f1
  induction f1 with
  | zero =>
    intro f2 buf h1 _
    have hb : buf = [] := List.length_eq_zero.mp (Nat.le_zero.mp h1)
    subst hb
    cases f2 <;> simp [extractLinesF, splitAtNL]
  | succ f ih =>
    intro f2 buf h1 h2
    cases f2 with
    | zero =>
      have hb : buf = [] := List.length_eq_zero.mp (Nat.le_zero.mp h2)
      subst hb
      simp [extractLinesF, splitAtNL]
    | succ f2' =>
      simp only [extractLinesF]
      cases hs : splitAtNL buf with
      | none => rfl
      | some pr =>
        obtain ⟨p, r⟩ := pr
        have hlen := splitAtNL_length hs
        simp only [ih f2' r (by omega) (by omega)]

lemma extractLines_eq (buf : List Char) : extractLines buf =
    match splitAtNL buf with
    | none => ([], buf)
    | some (p, r) => (stripCR p :: (extractLines r).1, (extractLines r).2) := by
  cases hs : splitAtNL buf with
  | none =>
    cases buf with
    | nil => rfl
    | cons c cs => simp [extractLines, extractLinesF, hs]
  | some pr =>
    obtain ⟨p, r⟩ := pr
    have hlen := splitAtNL_length hs
    cases buf with
    | nil => simp [splitAtNL] at hs
    | cons c cs =>
      simp only [extractLines, List.length_cons, extractLinesF, hs]
      rw [extractLinesF_congr (cs.length) (r.length) r (by simp at hlen; omega) le_rfl]

lemma extract_rest_aux : ∀ (n : Nat) (buf : List Char), buf.length ≤ n →
    splitAtNL (extractLines buf).2 = none := by
  intro n
  induction n with
  | zero =>
    intro buf h
    have hb : buf = [] := List.length_eq_zero.mp (Nat.le_zero.mp h)
    subst hb
    rfl
  | succ n ih =>
    intro buf h
    rw [extractLines_eq]
    cases hs : splitAtNL buf with
    | none => simpa using hs
    | some pr =>
      obtain ⟨p, r⟩ := pr
      have hlen := splitAtNL_length hs
      simpa using ih r (by omega)

lemma extract_rest_no_nl (buf : List Char) : splitAtNL (extractLines buf).2 = none :=
  extract_rest_aux buf.length buf le_rfl

lemma extract_append_aux : ∀ (n : Nat) (buf : List Char), buf.length ≤ n → ∀ (more : List Char),
    extractLines (buf ++ more) =
      ((extractLines buf).1 ++ (extractLines ((extractLines buf).2 ++ more)).1,
       (extractLines ((extractLines buf).2 ++ more)).2) := by
  intro n
  induction n with
  | zero =>
    intro buf h more
    have hb : buf = [] := List.length_eq_zero.mp (Nat.le_zero.mp h)
    subst hb
    simp [show extractLines ([] : List Char) = ([], []) from rfl]
  | succ n ih =>
    intro buf h more
    cases hs : splitAtNL buf with
    | none =>
      have h1 : extractLines buf = ([], buf) := by rw [extractLines_eq, hs]
      rw [h1]
      simp
    | some pr =>
      obtain ⟨p, r⟩ := pr
      have hlen := splitAtNL_length hs
      have h1 : extractLines buf = (stripCR p :: (extractLines r).1, (extractLines r).2) := by
        rw [extractLines_eq, hs]
      have h3 : extractLines (buf ++ more) =
          (stripCR p :: (extractLines (r ++ more)).1, (extractLines (r ++ more)).2) := by
        rw [extractLines_eq, splitAtNL_some_append hs more]
      rw [h3, h1, ih r (by omega) more]
      simp

lemma extract_append (buf more : List Char) :
    extractLines (buf ++ more) =
      ((extractLines buf).1 ++ (extractLines ((extractLines buf).2 ++ more)).1,
       (extractLines ((extractLines buf).2 ++ more)).2) :=
  extract_append_aux buf.length buf le_rfl more

lemma feedChunks_join : ∀ (chunks : List (List Char)) (r : List Char), splitAtNL r = none →
    feedChunks r chunks = extractLines (r ++ chunks.flatten) := by
  intro chunks
  induction chunks with
  | nil =>
    intro r hr
    have h1 : extractLines r = ([], r) := by rw [extractLines_eq, hr]
    simp [feedChunks, h1]
  | cons ch chs ih =>
    intro r hr
    have hrest := extract_rest_no_nl (r ++ ch)
    have ih2 := ih (extractLines (r ++ ch)).2 hrest
    simp only [feedChunks, ih2]
    rw [show r ++ (ch :: chs).flatten = (r ++ ch) ++ chs.flatten by simp]
    rw [extract_append (r ++ ch) chs.flatten]

/- ------------------------------------------------------------------ -/
/- Generic lemmas about exception-propagating sequencing.              -/
/- ------------------------------------------------------------------ -/

lemma runAll_append {σ α : Type} (f : σ → α → Outcome σ) :
    ∀ (xs ys : List α) (s : σ),
      runAll f s (xs ++ ys) =
        match runAll f s xs with
        | .ok s' => runAll f s' ys
        | .thrown m => .thrown m
        | .crash => .crash := by
  intro xs
  induction xs with
  | nil => intro ys s; rfl
  | cons x xs ih =>
    intro ys s
    simp only [List.cons_append, runAll]
    cases hfx : f s x with
    | ok s' => exact ih ys s'
    | thrown m => rfl
    | crash => rfl

/-- The shape hypothesis shared by both programs' handleLine: its result
does not depend on the buffer the connection carries, except that the
buffer is carried through unchanged. -/
def BufIrrelevant {ι δ : Type} (hl : Conn ι × δ → List Char → Outcome (Conn ι × δ)) : Prop :=
  ∀ (fd : Int) (b b' : List Char) (st : PState) (itp : Option ι) (d : δ) (l : List Char),
    hl (⟨fd, b, st, itp⟩, d) l = rebuf b (hl (⟨fd, b', st, itp⟩, d) l)

lemma runAll_rebuf {ι δ : Type} {hl : Conn ι × δ → List Char → Outcome (Conn ι × δ)}
    (hsh : BufIrrelevant hl) :
    ∀ (ls : List (List Char)) (fd : Int) (b b' : List Char) (st : PState)
      (itp : Option ι) (d : δ),
      runAll hl (⟨fd, b, st, itp⟩, d) ls = rebuf b (runAll hl (⟨fd, b', st, itp⟩, d) ls) := by
  intro ls
  induction ls with
  | nil => intro fd b b' st itp d; rfl
  | cons l ls ih =>
    intro fd b b' st itp d
    simp only [runAll]
    rw [hsh fd b b' st itp d l]
    cases hx : hl (⟨fd, b', st, itp⟩, d) l with
    | ok s' =>
      obtain ⟨⟨cfd, cbuf, cst, citp⟩, d'⟩ := s'
      simp only [rebuf]
      exact ih cfd b cbuf cst citp d'
    | thrown m => rfl
    | crash => rfl

lemma chunk_generic {ι δ : Type} {hl : Conn ι × δ → List Char → Outcome (Conn ι × δ)}
    (hsh : BufIrrelevant hl) :
    ∀ (chunks : List (List Char)) (fd : Int) (b : List Char) (st : PState)
      (itp : Option ι) (d : δ),
      splitAtNL b = none →
      runAll (handleInputG hl) (⟨fd, b, st, itp⟩, d) chunks =
        handleInputG hl (⟨fd, b, st, itp⟩, d) chunks.flatten := by
  intro chunks
  induction chunks with
  | nil =>
    intro fd b st itp d hb
    have he : extractLines b = ([], b) := by
      rw [extractLines_eq, hb]
    simp [runAll, handleInputG, he]
  | cons ch chs ih =>
    intro fd b st itp d hb
    have hr1 : splitAtNL (extractLines (b ++ ch)).2 = none := extract_rest_no_nl (b ++ ch)
    have hflat : b ++ (ch :: chs).flatten = (b ++ ch) ++ chs.flatten := by simp
    have happ := extract_append (b ++ ch) chs.flatten
    -- the single-shot run
    have hsingle : handleInputG hl (⟨fd, b, st, itp⟩, d) (ch :: chs).flatten =
        runAll hl
          (⟨fd, (extractLines ((extractLines (b ++ ch)).2 ++ chs.flatten)).2, st, itp⟩, d)
          ((extractLines (b ++ ch)).1 ++
            (extractLines ((extractLines (b ++ ch)).2 ++ chs.flatten)).1) := by
      simp only [handleInputG, hflat, happ]
    rw [hsingle, runAll_append,
      runAll_rebuf hsh ((extractLines (b ++ ch)).1) fd
        ((extractLines ((extractLines (b ++ ch)).2 ++ chs.flatten)).2)
        ((extractLines (b ++ ch)).2) st itp d]
    -- the chunked run
    simp only [runAll, handleInputG]
    cases hx : runAll hl (⟨fd, (extractLines (b ++ ch)).2, st, itp⟩, d)
        (extractLines (b ++ ch)).1 with
    | ok s' =>
      obtain ⟨⟨cfd, cbuf, cst, citp⟩, d'⟩ := s'
      have hb2 : cbuf = (extractLines (b ++ ch)).2 := by
        have hself := runAll_rebuf hsh ((extractLines (b ++ ch)).1) fd
          ((extractLines (b ++ ch)).2) ((extractLines (b ++ ch)).2) st itp d
        rw [hx] at hself
        simp only [rebuf, Conn.mk.injEq, Outcome.ok.injEq, Prod.mk.injEq] at hself
        exact hself.1.2.1
      subst hb2
      simp only [rebuf]
      exact ih cfd (extractLines (b ++ ch)).2 cst citp d' hr1
    | thrown m => rfl
    | crash => rfl

lemma display_bufIrrelevant : BufIrrelevant Display.stepConn := by
  intro fd b b' st itp d l
  cases st with
  | action => rfl
  | header =>
    simp only [Display.stepConn, Display.handleLine]
    by_cases hl0 : l = []
    · simp [hl0, rebuf]
    · simp only [if_neg hl0]
      cases hc : splitColon l with
      | none => rfl
      | some pr =>
        obtain ⟨hd, rest⟩ := pr
        simp only [Display.handleHeader, rebuf]
        split_ifs <;> rfl
  | data =>
    simp only [Display.stepConn, Display.handleLine]
    cases itp with
    | none => rfl
    | some i =>
      cases i with
      | geo =>
        cases h0 : (splitTab l)[0]? with
        | none => simp [Display.interpData, h0, rebuf]
        | some v0 =>
          cases h1 : (splitTab l)[1]? with
          | none => simp [Display.interpData, h0, h1, rebuf]
          | some v1 => simp [Display.interpData, h0, h1, rebuf]
      | text =>
        cases h0 : (splitTab l)[0]? with
        | none => simp [Display.interpData, h0, rebuf]
        | some v0 =>
          cases h1 : (splitTab l)[1]? with
          | none => simp [Display.interpData, h0, h1, rebuf]
          | some v1 => simp [Display.interpData, h0, h1, rebuf]

lemma sidescroll_bufIrrelevant : BufIrrelevant Sidescroll.stepConn := by
  intro fd b b' st itp d l
  cases st with
  | action => rfl
  | header =>
    simp only [Sidescroll.stepConn, Sidescroll.handleLine]
    by_cases hl0 : l = []
    · simp [hl0, rebuf]
    · simp only [if_neg hl0]
      cases hc : splitColon l with
      | none => rfl
      | some pr =>
        obtain ⟨hd, rest⟩ := pr
        simp only [Sidescroll.handleHeader, rebuf]
        split_ifs <;> rfl
  | data =>
    simp only [Sidescroll.stepConn, Sidescroll.handleLine]
    cases itp with
    | none => rfl
    | some i =>
      cases ht : Sidescroll.textHandleData d (splitTab l) <;> simp [ht, rebuf]

/- ------------------------------------------------------------------ -/
/- Registry growth.                                                    -/
/- ------------------------------------------------------------------ -/

lemma growToF_spec {ι : Type} : ∀ (fuel : Nat) (conns : List (Conn ι)) (con : Nat),
    con - conns.length ≤ fuel →
    growToF fuel conns con = conns ++ List.replicate (con - conns.length) (initConn (-1)) := by
  intro fuel
  induction fuel with
  | zero =>
    intro conns con h
    have h0 : con - conns.length = 0 := Nat.le_zero.mp h
    simp [growToF, h0]
  | succ fuel ih =>
    intro conns con h
    rw [growToF]
    by_cases hlt : conns.length < con
    · rw [if_pos hlt, ih (conns ++ [initConn (-1)]) con (by simp; omega)]
      rw [List.append_assoc]
      congr 1
      have h1 : con - conns.length = (con - (conns ++ [initConn (-1)]).length) + 1 := by
        simp
        omega
      rw [h1, List.replicate_succ]
      rfl
    · rw [if_neg hlt]
      have h0 : con - conns.length = 0 := by omega
      simp [h0]

lemma growTo_spec {ι : Type} (conns : List (Conn ι)) (con : Nat) :
    growTo conns con = conns ++ List.replicate (con - conns.length) (initConn (-1)) :=
  growToF_spec con conns con (Nat.sub_le con conns.length)

lemma acceptConnection_fresh {ι : Type} (conns : List (Conn ι)) (con : Nat)
    (h : conns.length ≤ con) :
    (acceptConnection conns con).length = con + 1 ∧
    (acceptConnection conns con)[con]? = some (initConn (Int.ofNat con)) ∧
    ∀ i, i < conns.length → (acceptConnection conns con)[i]? = conns[i]? := by
  have hspec : acceptConnection conns con =
      (conns ++ List.replicate (con - conns.length) (initConn (-1))) ++
        [initConn (Int.ofNat con)] := by
    rw [acceptConnection, growTo_spec]
  have hlen : (conns ++ List.replicate (con - conns.length) (initConn (-1) : Conn ι)).length
      = con := by
    simp
    omega
  refine ⟨?_, ?_, ?_⟩
  · rw [hspec]
    simp
    omega
  · rw [hspec, List.getElem?_append_right (by omega), hlen]
    simp
  · intro i hi
    rw [hspec, List.getElem?_append_left (by simp; omega), List.getElem?_append_left hi]

/- ------------------------------------------------------------------ -/
/- The maxsize policy and the font table.                              -/
/- ------------------------------------------------------------------ -/

lemma maxsize_mem (n : Nat) (rs : Sidescroll.RandS) :
    (Sidescroll.maxsize n rs).1 ∈ Sidescroll.maxsizeVals n ∧
    1 ≤ (Sidescroll.maxsize n rs).1 ∧ (Sidescroll.maxsize n rs).1 ≤ 28 := by
  simp only [Sidescroll.maxsize, Sidescroll.maxsizeVals]
  split_ifs <;> simp

lemma maxsizeVals_sub (n : Nat) :
    ∀ x, x ∈ Sidescroll.maxsizeVals n → x ∈ ([1, 4, 8, 12, 16, 20, 24, 28] : List Nat) := by
  intro x hx
  simp only [Sidescroll.maxsizeVals] at hx
  split_ifs at hx <;> simp at hx <;> (try rcases hx with rfl | rfl) <;> (try subst hx) <;> decide

lemma fontsInit_lookup : ∀ (h : Nat), 1 ≤ h → h ≤ 31 →
    Sidescroll.fontsInit[h]? = some (some h) := by
  intro h h1 h2
  interval_cases h <;> rfl

/- ------------------------------------------------------------------ -/
/- Shape lemmas for the parser state machine.                          -/
/- ------------------------------------------------------------------ -/

lemma display_handleHeader_shape (c : Conn Display.Interp) (hd val : List Char) :
    ∃ itp', Display.handleHeader c hd val = ⟨c.fd, c.buf, c.st, itp'⟩ := by
  simp only [Display.handleHeader]
  split_ifs <;> exact ⟨_, rfl⟩

lemma sidescroll_handleHeader_shape (c : Conn Sidescroll.Interp) (hd val : List Char) :
    ∃ itp', Sidescroll.handleHeader c hd val = ⟨c.fd, c.buf, c.st, itp'⟩ := by
  simp only [Sidescroll.handleHeader]
  split_ifs <;> exact ⟨_, rfl⟩

lemma display_header_step (fd : Int) (b : List Char) (itp : Option Display.Interp)
    (g : Display.GeoData) (l : List Char) (c2 : Conn Display.Interp) (g2 : Display.GeoData)
    (hne : l ≠ []) (hstep : Display.stepConn (⟨fd, b, .header, itp⟩, g) l = .ok (c2, g2)) :
    c2.st = .header ∧ g2 = g := by
  simp only [Display.stepConn, Display.handleLine, if_neg hne] at hstep
  cases hc : splitColon l with
  | none => rw [hc] at hstep; simp at hstep
  | some pr =>
    obtain ⟨hd, rest⟩ := pr
    simp only [hc] at hstep
    obtain ⟨itp', hh⟩ := display_handleHeader_shape ⟨fd, b, .header, itp⟩ hd (trimLeft rest)
    rw [hh] at hstep
    simp only [Outcome.ok.injEq, Prod.mk.injEq] at hstep
    obtain ⟨h1, h2⟩ := hstep
    subst h1
    exact ⟨rfl, h2.symm⟩

lemma sidescroll_header_step (fd : Int) (b : List Char) (itp : Option Sidescroll.Interp)
    (s : Sidescroll.SState) (l : List Char) (c2 : Conn Sidescroll.Interp)
    (s2 : Sidescroll.SState) (hne : l ≠ [])
    (hstep : Sidescroll.stepConn (⟨fd, b, .header, itp⟩, s) l = .ok (c2, s2)) :
    c2.st = .header ∧ s2 = s := by
  simp only [Sidescroll.stepConn, Sidescroll.handleLine, if_neg hne] at hstep
  cases hc : splitColon l with
  | none => rw [hc] at hstep; simp at hstep
  | some pr =>
    obtain ⟨hd, rest⟩ := pr
    simp only [hc] at hstep
    obtain ⟨itp', hh⟩ := sidescroll_handleHeader_shape ⟨fd, b, .header, itp⟩ hd (trimLeft rest)
    rw [hh] at hstep
    simp only [Outcome.ok.injEq, Prod.mk.injEq] at hstep
    obtain ⟨h1, h2⟩ := hstep
    subst h1
    exact ⟨rfl, h2.symm⟩

lemma display_header_run : ∀ (ls : List (List Char)) (fd : Int) (b : List Char)
    (itp : Option Display.Interp) (g : Display.GeoData) (c' : Conn Display.Interp)
    (g' : Display.GeoData),
    runAll Display.stepConn (⟨fd, b, .header, itp⟩, g) ls = .ok (c', g') →
    c'.st = .data → ∃ k, k < ls.length ∧ ls[k]? = some [] := by
  intro ls
  induction ls with
  | nil =>
    intro fd b itp g c' g' hrun hst
    simp only [runAll, Outcome.ok.injEq, Prod.mk.injEq] at hrun
    obtain ⟨h1, -⟩ := hrun
    rw [← h1] at hst
    simp at hst
  | cons l ls ih =>
    intro fd b itp g c' g' hrun hst
    by_cases hl0 : l = []
    · exact ⟨0, by simp, by simp [hl0]⟩
    · simp only [runAll] at hrun
      cases hstep : Display.stepConn (⟨fd, b, .header, itp⟩, g) l with
      | thrown m => rw [hstep] at hrun; simp at hrun
      | crash => rw [hstep] at hrun; simp at hrun
      | ok s2 =>
        rw [hstep] at hrun
        obtain ⟨c2, g2⟩ := s2
        obtain ⟨hst2, hg2⟩ := display_header_step fd b itp g l c2 g2 hl0 hstep
        rw [hg2] at hrun
        obtain ⟨c2fd, c2buf, c2st, c2itp⟩ := c2
        simp only at hst2
        subst hst2
        obtain ⟨k, hk, hkv⟩ := ih c2fd c2buf c2itp g c' g' hrun hst
        refine ⟨k + 1, ?_, ?_⟩
        · simp only [List.length_cons]
          omega
        · simpa using hkv

lemma sidescroll_header_run : ∀ (ls : List (List Char)) (fd : Int) (b : List Char)
    (itp : Option Sidescroll.Interp) (s : Sidescroll.SState) (c' : Conn Sidescroll.Interp)
    (s' : Sidescroll.SState),
    runAll Sidescroll.stepConn (⟨fd, b, .header, itp⟩, s) ls = .ok (c', s') →
    c'.st = .data → ∃ k, k < ls.length ∧ ls[k]? = some [] := by
  intro ls
  induction ls with
  | nil =>
    intro fd b itp s c' s' hrun hst
    simp only [runAll, Outcome.ok.injEq, Prod.mk.injEq] at hrun
    obtain ⟨h1, -⟩ := hrun
    rw [← h1] at hst
    simp at hst
  | cons l ls ih =>
    intro fd b itp s c' s' hrun hst
    by_cases hl0 : l = []
    · exact ⟨0, by simp, by simp [hl0]⟩
    · simp only [runAll] at hrun
      cases hstep : Sidescroll.stepConn (⟨fd, b, .header, itp⟩, s) l with
      | thrown m => rw [hstep] at hrun; simp at hrun
      | crash => rw [hstep] at hrun; simp at hrun
      | ok s2 =>
        rw [hstep] at hrun
        obtain ⟨c2, d2⟩ := s2
        obtain ⟨hst2, hd2⟩ := sidescroll_header_step fd b itp s l c2 d2 hl0 hstep
        rw [hd2] at hrun
        obtain ⟨c2fd, c2buf, c2st, c2itp⟩ := c2
        simp only at hst2
        subst hst2
        obtain ⟨k, hk, hkv⟩ := ih c2fd c2buf c2itp s c' s' hrun hst
        refine ⟨k + 1, ?_, ?_⟩
        · simp only [List.length_cons]
          omega
        · simpa using hkv

lemma display_data_step (fd : Int) (b : List Char) (itp : Option Display.Interp)
    (g : Display.GeoData) (l : List Char) (c' : Conn Display.Interp) (g' : Display.GeoData)
    (h : Display.handleLine ⟨fd, b, .data, itp⟩ g l = .ok (c', g')) :
    c' = ⟨fd, b, .data, itp⟩ := by
  cases itp with
  | none => simp [Display.handleLine] at h
  | some i =>
    cases i <;> simp only [Display.handleLine, Display.interpData] at h <;>
      cases h0 : (splitTab l).get? 0 <;> cases h1 : (splitTab l).get? 1 <;>
      simp only [h0, h1] at h <;> simp_all

lemma sidescroll_data_step (fd : Int) (b : List Char) (itp : Option Sidescroll.Interp)
    (s : Sidescroll.SState) (l : List Char) (c' : Conn Sidescroll.Interp)
    (s' : Sidescroll.SState)
    (h : Sidescroll.handleLine ⟨fd, b, .data, itp⟩ s l = .ok (c', s')) :
    c' = ⟨fd, b, .data, itp⟩ := by
  cases itp with
  | none => simp [Sidescroll.handleLine] at h
  | some i =>
    simp only [Sidescroll.handleLine] at h
    cases ht : Sidescroll.textHandleData s (splitTab l) <;> rw [ht] at h <;> simp_all

/- ------------------------------------------------------------------ -/
/- Concrete atof evaluations used by the claims.                       -/
/- ------------------------------------------------------------------ -/

lemma atof_12_5 : atof ("12.5".toList) = 25 / 2 := by
  have hp : atofParse ("12.5".toList) = ⟨false, 12, 2, 5, 1⟩ := by decide
  simp only [atof, hp]
  norm_num

lemma atof_neg3_25 : atof ("-3.25".toList) = -13 / 4 := by
  have hp : atofParse ("-3.25".toList) = ⟨true, 3, 1, 25, 2⟩ := by decide
  simp only [atof, hp]
  norm_num

lemma atof_5_0 : atof ("5.0".toList) = 5 := by
  have hp : atofParse ("5.0".toList) = ⟨false, 5, 1, 0, 1⟩ := by decide
  simp only [atof, hp]
  norm_num

lemma atof_6_0 : atof ("6.0".toList) = 6 := by
  have hp : atofParse ("6.0".toList) = ⟨false, 6, 1, 0, 1⟩ := by decide
  simp only [atof, hp]
  norm_num

/- ------------------------------------------------------------------ -/
/- Claim theorems.                                                     -/
/- ------------------------------------------------------------------ -/

/-- C1, counterexample: a connection in the DATA state with no bound
interpreter does NOT drop a data record as a no-op; handleLine performs
a virtual call through the null interpreter pointer, which is undefined
behavior (a crash), in both programs.  Shown here at the concrete data
line "x". -/
theorem c1_counterexample :
    Display.handleLine ⟨3, [], .data, none⟩ ⟨0, 0⟩ ['x'] = .crash ∧
    Sidescroll.handleLine ⟨3, [], .data, none⟩ ⟨[], []⟩ ['x'] = .crash :=
  ⟨rfl, rfl⟩

/-- C1, amended: for every connection in the DATA state with no bound
interpreter (unrecognized or missing Content-type), handling any data
line dereferences the null interpreter — undefined behavior that brings
the connection (and process) down — instead of silently dropping the
record; this holds in both programs. -/
theorem c1_amended :
    (∀ (fd : Int) (b : List Char) (g : Display.GeoData) (l : List Char),
      Display.handleLine ⟨fd, b, .data, none⟩ g l = .crash) ∧
    (∀ (fd : Int) (b : List Char) (s : Sidescroll.SState) (l : List Char),
      Sidescroll.handleLine ⟨fd, b, .data, none⟩ s l = .crash) := by
  constructor
  · intro fd b g l; rfl
  · intro fd b s l; rfl

/-- C2: what acceptInput actually does when read(2) reports peer close
or error, evaluated at a concrete registry (closed placeholders at
indices 0..3, an open DATA connection at index 4, poller registrations
{3,4}).  A zero-length read (peer close) leaves the world completely
unchanged — the connection is neither unregistered, nor closed, nor
reset, contradicting the claim.  A negative read attempts
epoll_ctl(DEL) on descriptor 0 instead of fd: with 0 unregistered the
call fails and the code throws (the loop dies, the slot is never
reset); were 0 registered, the close path would run but remove 0 — not
fd — from the poller.  The same holds in the sidescroll program. -/
theorem c2_read_error_behavior :
    (Display.acceptInput ⟨[initConn (-1), initConn (-1), initConn (-1), initConn (-1),
        ⟨4, [], .data, some .text⟩], [3, 4], ⟨0, 0⟩⟩ 4 (.bytes []) =
      .ok ⟨[initConn (-1), initConn (-1), initConn (-1), initConn (-1),
        ⟨4, [], .data, some .text⟩], [3, 4], ⟨0, 0⟩⟩) ∧
    (Display.acceptInput ⟨[initConn (-1), initConn (-1), initConn (-1), initConn (-1),
        ⟨4, [], .data, some .text⟩], [3, 4], ⟨0, 0⟩⟩ 4 .err =
      .thrown epollFailMsg) ∧
    (Display.acceptInput ⟨[initConn (-1), initConn (-1), initConn (-1), initConn (-1),
        ⟨4, [], .data, some .text⟩], [0, 3, 4], ⟨0, 0⟩⟩ 4 .err =
      .ok ⟨[initConn (-1), initConn (-1), initConn (-1), initConn (-1), initConn (-1)],
        [3, 4], ⟨0, 0⟩⟩) ∧
    (Sidescroll.acceptInput ⟨[initConn (-1), initConn (-1), initConn (-1), initConn (-1),
        ⟨4, [], .data, some .text⟩], [3, 4], ⟨[], []⟩⟩ 4 (.bytes []) =
      .ok ⟨[initConn (-1), initConn (-1), initConn (-1), initConn (-1),
        ⟨4, [], .data, some .text⟩], [3, 4], ⟨[], []⟩⟩) ∧
    (Sidescroll.acceptInput ⟨[initConn (-1), initConn (-1), initConn (-1), initConn (-1),
        ⟨4, [], .data, some .text⟩], [3, 4], ⟨[], []⟩⟩ 4 .err =
      .thrown epollFailMsg) ∧
    (Sidescroll.acceptInput ⟨[initConn (-1), initConn (-1), initConn (-1), initConn (-1),
        ⟨4, [], .data, some .text⟩], [0, 3, 4], ⟨[], []⟩⟩ 4 .err =
      .ok ⟨[initConn (-1), initConn (-1), initConn (-1), initConn (-1), initConn (-1)],
        [3, 4], ⟨[], []⟩⟩) := by
  refine ⟨by decide, by decide, by decide, by decide, by decide, by decide⟩

/-- C3: line recognition is read-boundary independent.  First, at the
extraction level: feeding any chunk sequence through the buffering scan
yields the same recognized lines and the same final remainder as one
single read of the whole stream.  Second, at the full input-handler
level for each program: folding handleInput over the chunks from any
fresh-buffer connection state gives the same outcome (connection state,
buffered remainder and downstream effects) as a single handleInput call
on the concatenated stream. -/
theorem c3_read_boundary_independence :
    (∀ (chunks : List (List Char)),
      feedChunks [] chunks = extractLines chunks.flatten) ∧
    (∀ (fd : Int) (st : PState) (itp : Option Display.Interp) (g : Display.GeoData)
        (chunks : List (List Char)),
      Display.feedAll (⟨fd, [], st, itp⟩, g) chunks =
        Display.handleInput (⟨fd, [], st, itp⟩, g) chunks.flatten) ∧
    (∀ (fd : Int) (st : PState) (itp : Option Sidescroll.Interp) (s : Sidescroll.SState)
        (chunks : List (List Char)),
      Sidescroll.feedAll (⟨fd, [], st, itp⟩, s) chunks =
        Sidescroll.handleInput (⟨fd, [], st, itp⟩, s) chunks.flatten) := by
  refine ⟨?_, ?_, ?_⟩
  · intro chunks
    simpa using feedChunks_join chunks [] rfl
  · intro fd st itp g chunks
    exact chunk_generic display_bufIrrelevant chunks fd [] st itp g rfl
  · intro fd st itp s chunks
    exact chunk_generic sidescroll_bufIrrelevant chunks fd [] st itp s rfl

/-- C4: on a Geo-bound connection in the DATA state, a record with at
least two tab-separated fields overwrites the shared target coordinates
with exactly atof of field 0 (latitude) and atof of field 1
(longitude), and the connection state is untouched.  atof is total: a
field that fails to parse yields 0 rather than an error, so no error
propagates. -/
theorem c4_geo_updates_target (fd : Int) (b : List Char) (g : Display.GeoData)
    (line f0 f1 : List Char) (rest : List (List Char))
    (h : splitTab line = f0 :: f1 :: rest) :
    Display.handleLine ⟨fd, b, .data, some .geo⟩ g line =
      .ok (⟨fd, b, .data, some .geo⟩, ⟨atof f0, atof f1⟩) := by
  simp [Display.handleLine, Display.interpData, h]

/-- C4 witness: the record "12.5"-tab-"-3.25" parses into those two
fields and sets the target coordinates to exactly (12.5, -3.25). -/
theorem c4_geo_updates_target_witness :
    splitTab ("12.5\t-3.25".toList) = ["12.5".toList, "-3.25".toList] ∧
    Display.handleLine ⟨1, [], .data, some .geo⟩ ⟨0, 0⟩ ("12.5\t-3.25".toList) =
      .ok (⟨1, [], .data, some .geo⟩, ⟨atof ("12.5".toList), atof ("-3.25".toList)⟩) ∧
    atof ("12.5".toList) = 25 / 2 ∧ atof ("-3.25".toList) = -13 / 4 := by
  exact ⟨by decide,
    c4_geo_updates_target 1 [] ⟨0, 0⟩ ("12.5\t-3.25".toList) ("12.5".toList)
      ("-3.25".toList) [] (by decide),
    atof_12_5, atof_neg3_25⟩

/-- C6: a data record on a Text-bound connection of the coordinate
display does NOT leave the shared target coordinates unchanged: the
DATA branch of handleLine overwrites geo.targetLat/targetLon after
every record regardless of the bound interpreter.  At the concrete
record "5.0"-tab-"6.0" the coordinates change from (1, 2) to (5, 6);
at a one-field record the same branch is an out-of-bounds access. -/
theorem c6_text_overwrites_coordinates :
    Display.handleLine ⟨7, [], .data, some .text⟩ ⟨1, 2⟩ ("5.0\t6.0".toList) =
      .ok (⟨7, [], .data, some .text⟩, ⟨5, 6⟩) ∧
    (⟨5, 6⟩ : Display.GeoData) ≠ (⟨1, 2⟩ : Display.GeoData) ∧
    Display.handleLine ⟨7, [], .data, some .text⟩ ⟨1, 2⟩ ("hello".toList) = .crash := by
  refine ⟨?_, ?_, rfl⟩
  · have h : Display.handleLine ⟨7, [], .data, some .text⟩ ⟨1, 2⟩ ("5.0\t6.0".toList) =
        .ok (⟨7, [], .data, some .text⟩, ⟨atof ("5.0".toList), atof ("6.0".toList)⟩) := rfl
    rw [h, atof_5_0, atof_6_0]
  · intro h
    have h1 := congrArg Display.GeoData.targetLat h
    norm_num at h1

/-- C5, counterexample: the registry invariant fails under handle reuse
after a close.  With a registry of size 2 whose slots are both the
closed marker (the state after a connection with handle 1 was accepted
and then closed), accepting handle 1 again appends the new connection
at index 2 and leaves slot 1 holding the closed placeholder, not the
accepted connection's state. -/
theorem c5_registry_reuse_counterexample :
    (acceptConnection ([initConn (-1), initConn (-1)] : List (Conn Display.Interp)) 1).length
      = 3 ∧
    (acceptConnection ([initConn (-1), initConn (-1)] : List (Conn Display.Interp)) 1)[1]? =
      some (initConn (-1)) ∧
    (acceptConnection ([initConn (-1), initConn (-1)] : List (Conn Display.Interp)) 1)[2]? =
      some (initConn (Int.ofNat 1)) ∧
    (initConn (-1) : Conn Display.Interp) ≠ initConn (Int.ofNat 1) := by
  exact ⟨by decide, by decide, by decide, by decide⟩

/-- C5, amended: the registry invariant holds for every accept of a
fresh handle, i.e. one at least the current table size (the only kind
that occurs while no connection has ever been closed, since the kernel
hands out the lowest unused descriptor): after accepting handle `con`
the table has `con + 1` slots, slot `con` holds exactly the new
connection's parser state, and every earlier slot is unchanged — so
every handle value seen so far resolves to a valid slot without bounds
checks.  On a reused handle smaller than the table size the new
connection is instead appended at the end (see the counterexample).
Proved for both programs' registries. -/
theorem c5_registry_fresh_handle :
    (∀ (conns : List (Conn Display.Interp)) (con : Nat), conns.length ≤ con →
      (acceptConnection conns con).length = con + 1 ∧
      (acceptConnection conns con)[con]? = some (initConn (Int.ofNat con)) ∧
      ∀ i, i < conns.length → (acceptConnection conns con)[i]? = conns[i]?) ∧
    (∀ (conns : List (Conn Sidescroll.Interp)) (con : Nat), conns.length ≤ con →
      (acceptConnection conns con).length = con + 1 ∧
      (acceptConnection conns con)[con]? = some (initConn (Int.ofNat con)) ∧
      ∀ i, i < conns.length → (acceptConnection conns con)[i]? = conns[i]?) :=
  ⟨fun conns con h => acceptConnection_fresh conns con h,
   fun conns con h => acceptConnection_fresh conns con h⟩

/-- C5 witness: accepting handle 2 into the empty registry yields a
3-slot table whose slot 2 is the new connection. -/
theorem c5_registry_fresh_handle_witness :
    ([] : List (Conn Display.Interp)).length ≤ 2 ∧
    (acceptConnection ([] : List (Conn Display.Interp)) 2).length = 2 + 1 ∧
    (acceptConnection ([] : List (Conn Display.Interp)) 2)[2]? =
      some (initConn (Int.ofNat 2)) := by
  exact ⟨by decide, (c5_registry_fresh_handle.1 [] 2 (by decide)).1,
    (c5_registry_fresh_handle.1 [] 2 (by decide)).2.1⟩

/-- C7: a text record with an empty first field leaves the display-item
list unchanged (and consumes no randomness); a record with a non-empty
first field appends exactly one new item carrying that field as its
text, whose height is `r % m + 4` for the size `m` the maxsize policy
chose for the current item count — so the height lies within the
policy's declared bounds for that count, and in [4, 31]. -/
theorem c7_text_record_handling :
    (∀ (s : Sidescroll.SState) (fs : List (List Char)),
      Sidescroll.textHandleData s ([] :: fs) = .ok s) ∧
    (∀ (s : Sidescroll.SState) (f0 : List Char) (fs : List (List Char)), f0 ≠ [] →
      ∃ (it : Sidescroll.LineItem) (rs' : Sidescroll.RandS) (m : Nat),
        Sidescroll.textHandleData s (f0 :: fs) = .ok ⟨s.items ++ [it], rs'⟩ ∧
        it.content = f0 ∧ m ∈ Sidescroll.maxsizeVals s.items.length ∧
        4 ≤ it.h ∧ it.h ≤ m + 3 ∧ it.h ≤ 31) := by
  constructor
  · intro s fs
    rfl
  · intro s f0 fs h0
    obtain ⟨-, hm1, hm2⟩ := maxsize_mem s.items.length (Sidescroll.randNext s.rs).2
    have hmod : (Sidescroll.randNext s.rs).1 %
          (Sidescroll.maxsize s.items.length (Sidescroll.randNext s.rs).2).1 <
        (Sidescroll.maxsize s.items.length (Sidescroll.randNext s.rs).2).1 :=
      Nat.mod_lt _ (by omega)
    refine ⟨⟨(Sidescroll.randNext s.rs).1 %
          (Sidescroll.maxsize s.items.length (Sidescroll.randNext s.rs).2).1 + 4,
        Sidescroll.screenW,
        Int.ofNat ((Sidescroll.randNext
            (Sidescroll.maxsize s.items.length (Sidescroll.randNext s.rs).2).2).1 %
          Sidescroll.screenH),
        Sidescroll.screenW * 2,
        (Sidescroll.randNext s.rs).1 %
          (Sidescroll.maxsize s.items.length (Sidescroll.randNext s.rs).2).1 + 4,
        f0, 0,
        64 + 191 * Int.ofNat ((Sidescroll.randNext s.rs).1 %
            (Sidescroll.maxsize s.items.length (Sidescroll.randNext s.rs).2).1 + 4) / 32 -
          Int.ofNat ((Sidescroll.randNext (Sidescroll.randNext
              (Sidescroll.maxsize s.items.length (Sidescroll.randNext s.rs).2).2).2).1 % 32),
        0⟩,
      (Sidescroll.randNext (Sidescroll.randNext
          (Sidescroll.maxsize s.items.length (Sidescroll.randNext s.rs).2).2).2).2,
      (Sidescroll.maxsize s.items.length (Sidescroll.randNext s.rs).2).1,
      ?_, rfl, ?_, ?_, ?_, ?_⟩
    · simp only [Sidescroll.textHandleData, List.get?_cons_zero, if_neg h0]
    · exact (maxsize_mem s.items.length (Sidescroll.randNext s.rs).2).1
    · dsimp only
      omega
    · dsimp only
      omega
    · dsimp only
      omega

/-- C7 witness: the record with single field "hi" on an empty item list
appends exactly one item with text "hi" within the policy's bounds. -/
theorem c7_text_record_handling_witness :
    ("hi".toList ≠ ([] : List Char)) ∧
    Sidescroll.textHandleData ⟨[], [5, 6, 7]⟩ ([] :: []) = .ok ⟨[], [5, 6, 7]⟩ ∧
    (∃ (it : Sidescroll.LineItem) (rs' : Sidescroll.RandS) (m : Nat),
      Sidescroll.textHandleData ⟨[], [5, 6, 7]⟩ ("hi".toList :: []) = .ok ⟨[it], rs'⟩ ∧
      it.content = "hi".toList ∧ m ∈ Sidescroll.maxsizeVals 0 ∧
      4 ≤ it.h ∧ it.h ≤ m + 3 ∧ it.h ≤ 31) := by
  exact ⟨by decide, c7_text_record_handling.1 ⟨[], [5, 6, 7]⟩ [],
    c7_text_record_handling.2 ⟨[], [5, 6, 7]⟩ ("hi".toList) [] (by decide)⟩

/-- C10: for every live-item count and every randomness, the maxsize
policy returns one of 1, 4, 8, 12, 16, 20, 24, 28; hence every height
`r % maxsize + 4` a new display item can get lies in [4, 31], and the
font-table lookup `fonts[h]` is in bounds in the 32-entry table and
never selects the null entry at index 0. -/
theorem c10_maxsize_range_and_font_safety :
    ∀ (n : Nat) (rs : Sidescroll.RandS),
      (Sidescroll.maxsize n rs).1 ∈ ([1, 4, 8, 12, 16, 20, 24, 28] : List Nat) ∧
      ∀ (r : Nat),
        4 ≤ r % (Sidescroll.maxsize n rs).1 + 4 ∧
        r % (Sidescroll.maxsize n rs).1 + 4 ≤ 31 ∧
        Sidescroll.fontsInit[r % (Sidescroll.maxsize n rs).1 + 4]? =
          some (some (r % (Sidescroll.maxsize n rs).1 + 4)) := by
  intro n rs
  obtain ⟨hmem, hm1, hm2⟩ := maxsize_mem n rs
  refine ⟨maxsizeVals_sub n _ hmem, ?_⟩
  intro r
  have h2 : r % (Sidescroll.maxsize n rs).1 < (Sidescroll.maxsize n rs).1 :=
    Nat.mod_lt _ (by omega)
  exact ⟨by omega, by omega, fontsInit_lookup _ (by omega) (by omega)⟩

/-- C8: a non-empty header line without a colon on a connection in the
READING_HEADERS state makes handleLine throw, and nothing between the
parser and the event loop catches the exception: processing the batch
that delivers that line aborts the whole loop with the thrown error, no
matter how many further event batches were to follow — ingestion stops
for all connections.  Proved for both programs. -/
theorem c8_protocol_error_fatal :
    (∀ (w : World Display.Interp Display.GeoData) (fd : Nat) (fd2 : Int)
        (itp : Option Display.Interp) (l : List Char) (batches : List (List Event)),
      w.conns.get? fd = some ⟨fd2, [], .header, itp⟩ →
      l ≠ [] → ':' ∉ l → '\n' ∉ l → '\r' ∉ l →
      Display.runLoop w ([Event.input fd (.bytes (l ++ ['\n']))] :: batches) =
        .thrown (Display.invalidHeaderMsg ++ l)) ∧
    (∀ (w : World Sidescroll.Interp Sidescroll.SState) (fd : Nat) (fd2 : Int)
        (itp : Option Sidescroll.Interp) (l : List Char) (batches : List (List Event)),
      w.conns.get? fd = some ⟨fd2, [], .header, itp⟩ →
      l ≠ [] → ':' ∉ l → '\n' ∉ l → '\r' ∉ l →
      Sidescroll.runLoop w ([Event.input fd (.bytes (l ++ ['\n']))] :: batches) =
        .thrown (Sidescroll.invalidHeaderMsg ++ l)) := by
  constructor
  · intro w fd fd2 itp l batches hget hne hcolon hnl hcr
    have hext : extractLines (l ++ ['\n']) = ([stripCR l], []) := by
      rw [extractLines_eq, splitAtNL_no_nl hnl []]
      rfl
    have hline : Display.stepConn (⟨fd2, [], .header, itp⟩, w.down) (stripCR l) =
        .thrown (Display.invalidHeaderMsg ++ l) := by
      rw [stripCR_no_cr hcr]
      simp only [Display.stepConn, Display.handleLine, if_neg hne, splitColon_none hcolon]
    simp only [Display.runLoop, runLoopG, runAll, Display.processEvents, processEventsG,
      handleEventG, Display.acceptInput, acceptInputG, hget, Display.handleInput,
      handleInputG, List.nil_append, hext, hline]
  · intro w fd fd2 itp l batches hget hne hcolon hnl hcr
    have hext : extractLines (l ++ ['\n']) = ([stripCR l], []) := by
      rw [extractLines_eq, splitAtNL_no_nl hnl []]
      rfl
    have hline : Sidescroll.stepConn (⟨fd2, [], .header, itp⟩, w.down) (stripCR l) =
        .thrown (Sidescroll.invalidHeaderMsg ++ l) := by
      rw [stripCR_no_cr hcr]
      simp only [Sidescroll.stepConn, Sidescroll.handleLine, if_neg hne,
        splitColon_none hcolon]
    simp only [Sidescroll.runLoop, runLoopG, runAll, Sidescroll.processEvents, processEventsG,
      handleEventG, Sidescroll.acceptInput, acceptInputG, hget, Sidescroll.handleInput,
      handleInputG, List.nil_append, hext, hline]

/-- C8 witness: the header line "NOCOLON" on connection 0 of a
one-connection world kills the loop with the protocol error. -/
theorem c8_protocol_error_fatal_witness :
    ("NOCOLON".toList ≠ ([] : List Char)) ∧ (':' ∉ "NOCOLON".toList) ∧
    Display.runLoop ⟨[⟨0, [], .header, none⟩], [0], ⟨0, 0⟩⟩
        [[Event.input 0 (.bytes ("NOCOLON".toList ++ ['\n']))]] =
      .thrown (Display.invalidHeaderMsg ++ "NOCOLON".toList) := by
  exact ⟨by decide, by decide,
    c8_protocol_error_fatal.1 ⟨[⟨0, [], .header, none⟩], [0], ⟨0, 0⟩⟩ 0 0 none
      ("NOCOLON".toList) [] rfl (by decide) (by decide) (by decide) (by decide)⟩

/-- C9: the parser state machine invariant, for both programs.
In the DATA state a successful handleLine leaves the connection record
unchanged (state stays DATA, the binding is fixed); in the ACTION state
it never changes the binding; and from a fresh connection, reaching the
DATA state after a sequence of lines requires at least the action line
followed later by a blank header-terminating line — so no data record
can be dispatched before one action line and a blank line have been
consumed.  (That a connection has at most one bound interpreter holds
by construction: the binding is a single optional field.) -/
theorem c9_state_machine_invariant :
    (∀ (fd : Int) (b : List Char) (itp : Option Display.Interp) (g : Display.GeoData)
        (l : List Char) (c' : Conn Display.Interp) (g' : Display.GeoData),
      Display.handleLine ⟨fd, b, .data, itp⟩ g l = .ok (c', g') →
      c'.st = .data ∧ c'.interpreter = itp) ∧
    (∀ (fd : Int) (b : List Char) (itp : Option Display.Interp) (g : Display.GeoData)
        (l : List Char) (c' : Conn Display.Interp) (g' : Display.GeoData),
      Display.handleLine ⟨fd, b, .action, itp⟩ g l = .ok (c', g') →
      c'.interpreter = itp) ∧
    (∀ (fd : Int) (g : Display.GeoData) (ls : List (List Char)) (c' : Conn Display.Interp)
        (g' : Display.GeoData),
      runAll Display.stepConn (initConn fd, g) ls = .ok (c', g') → c'.st = .data →
      ∃ k, 1 ≤ k ∧ k < ls.length ∧ ls[k]? = some []) ∧
    (∀ (fd : Int) (b : List Char) (itp : Option Sidescroll.Interp) (s : Sidescroll.SState)
        (l : List Char) (c' : Conn Sidescroll.Interp) (s' : Sidescroll.SState),
      Sidescroll.handleLine ⟨fd, b, .data, itp⟩ s l = .ok (c', s') →
      c'.st = .data ∧ c'.interpreter = itp) ∧
    (∀ (fd : Int) (b : List Char) (itp : Option Sidescroll.Interp) (s : Sidescroll.SState)
        (l : List Char) (c' : Conn Sidescroll.Interp) (s' : Sidescroll.SState),
      Sidescroll.handleLine ⟨fd, b, .action, itp⟩ s l = .ok (c', s') →
      c'.interpreter = itp) ∧
    (∀ (fd : Int) (s : Sidescroll.SState) (ls : List (List Char))
        (c' : Conn Sidescroll.Interp) (s' : Sidescroll.SState),
      runAll Sidescroll.stepConn (initConn fd, s) ls = .ok (c', s') → c'.st = .data →
      ∃ k, 1 ≤ k ∧ k < ls.length ∧ ls[k]? = some []) := by
  refine ⟨?_, ?_, ?_, ?_, ?_, ?_⟩
  · intro fd b itp g l c' g' h
    have h2 := display_data_step fd b itp g l c' g' h
    subst h2
    exact ⟨rfl, rfl⟩
  · intro fd b itp g l c' g' h
    have h2 : Display.handleLine ⟨fd, b, .action, itp⟩ g l =
        .ok (⟨fd, b, .header, itp⟩, g) := rfl
    rw [h2] at h
    simp only [Outcome.ok.injEq, Prod.mk.injEq] at h
    rw [← h.1]
  · intro fd g ls c' g' hrun hst
    cases ls with
    | nil =>
      simp only [runAll, Outcome.ok.injEq, Prod.mk.injEq] at hrun
      obtain ⟨h1, -⟩ := hrun
      rw [← h1] at hst
      simp [initConn] at hst
    | cons l ls =>
      simp only [runAll] at hrun
      rw [show Display.stepConn (initConn fd, g) l =
        .ok (⟨fd, [], .header, none⟩, g) from rfl] at hrun
      obtain ⟨k, hk, hkv⟩ := display_header_run ls fd [] none g c' g' hrun hst
      refine ⟨k + 1, by omega, ?_, by simpa using hkv⟩
      simp only [List.length_cons]
      omega
  · intro fd b itp s l c' s' h
    have h2 := sidescroll_data_step fd b itp s l c' s' h
    subst h2
    exact ⟨rfl, rfl⟩
  · intro fd b itp s l c' s' h
    have h2 : Sidescroll.handleLine ⟨fd, b, .action, itp⟩ s l =
        .ok (⟨fd, b, .header, itp⟩, s) := rfl
    rw [h2] at h
    simp only [Outcome.ok.injEq, Prod.mk.injEq] at h
    rw [← h.1]
  · intro fd s ls c' s' hrun hst
    cases ls with
    | nil =>
      simp only [runAll, Outcome.ok.injEq, Prod.mk.injEq] at hrun
      obtain ⟨h1, -⟩ := hrun
      rw [← h1] at hst
      simp [initConn] at hst
    | cons l ls =>
      simp only [runAll] at hrun
      rw [show Sidescroll.stepConn (initConn fd, s) l =
        .ok (⟨fd, [], .header, none⟩, s) from rfl] at hrun
      obtain ⟨k, hk, hkv⟩ := sidescroll_header_run ls fd [] none s c' s' hrun hst
      refine ⟨k + 1, by omega, ?_, by simpa using hkv⟩
      simp only [List.length_cons]
      omega

/-- C9 witness: the two-line sequence "A", "" drives a fresh connection
to the DATA state, and the invariant locates the blank line at index
1. -/
theorem c9_state_machine_invariant_witness :
    runAll Display.stepConn (initConn 0, (⟨0, 0⟩ : Display.GeoData)) [['A'], []] =
      .ok (⟨0, [], .data, none⟩, (⟨0, 0⟩ : Display.GeoData)) ∧
    (∃ k, 1 ≤ k ∧ k < ([['A'], []] : List (List Char)).length ∧
      ([['A'], []] : List (List Char))[k]? = some []) := by
  exact ⟨rfl, c9_state_machine_invariant.2.2.1 0 ⟨0, 0⟩ [['A'], []]
    ⟨0, [], .data, none⟩ ⟨0, 0⟩ rfl rfl⟩


end Poserspace
